import Mathlib

/-!
Verification development for the node-blend compositing core
(`src/blend.cpp`).  C `unsigned int` arithmetic is embedded as `Nat`
with explicit reduction modulo `2^32`; C `int` values are embedded as
`Int`; fallible paths return `Except`.  External collaborators (the
PNG/JPEG decoders and encoders, §4.2/§4.5 of the spec) are represented
by their observable outputs: each layer record carries the values the
decoder facade reports, and the final encode step is represented by the
data it deterministically consumes (canvas, flag, options).
-/

/-- Decidable equality for `Except`, used to evaluate the model on
concrete jobs. -/
instance {ε α : Type} [DecidableEq ε] [DecidableEq α] : DecidableEq (Except ε α) :=
  fun x y =>
    match x, y with
    | .ok a, .ok b =>
      if h : a = b then isTrue (by rw [h]) else isFalse (fun hc => h (by cases hc; rfl))
    | .error a, .error b =>
      if h : a = b then isTrue (by rw [h]) else isFalse (fun hc => h (by cases hc; rfl))
    | .ok _, .error _ => isFalse (fun hc => by cases hc)
    | .error _, .ok _ => isFalse (fun hc => by cases hc)

namespace NodeBlend

/-- Modulus of C `unsigned int` arithmetic (32 bits). -/
def M32 : Nat := 4294967296

/-- Wrapping 32-bit addition. -/
def wadd (a b : Nat) : Nat := (a + b) % M32

/-- Wrapping 32-bit subtraction: C unsigned `a - b`. -/
def wsub (a b : Nat) : Nat := (a % M32 + (M32 - b % M32)) % M32

/-- Wrapping 32-bit multiplication. -/
def wmul (a b : Nat) : Nat := a * b % M32

/-- Wrapping 32-bit left shift. -/
def wshl (a n : Nat) : Nat := (a <<< n) % M32

/-- `Blend_CompositePixel` (src/src/blend.cpp lines 368-395): the
per-pixel porter-duff "over" on 32-bit ARGB words, using only 32-bit
unsigned intermediates. -/
def Blend_CompositePixel (target source : Nat) : Nat :=
  if source ≤ 0x00FFFFFF then
    -- Top pixel is fully transparent: do nothing.
    target
  else if 0xFF000000 ≤ source ∨ target ≤ 0x00FFFFFF then
    -- Top pixel fully opaque, or bottom pixel fully transparent.
    source
  else
    let a1 := (source >>> 24) &&& 0xff
    let r1 := source &&& 0xff
    let g1 := (source >>> 8) &&& 0xff
    let b1 := (source >>> 16) &&& 0xff
    let a0 := (target >>> 24) &&& 0xff
    let r0 := wmul (target &&& 0xff) a0
    let g0 := wmul ((target >>> 8) &&& 0xff) a0
    let b0 := wmul ((target >>> 16) &&& 0xff) a0
    let a0n := wsub (wshl (wadd a1 a0) 8) (wmul a0 a1)
    let r0n := wadd (wmul (wsub (wshl r1 8) r0) a1) (wshl r0 8) / a0n
    let g0n := wadd (wmul (wsub (wshl g1 8) g0) a1) (wshl g0 8) / a0n
    let b0n := wadd (wmul (wsub (wshl b1 8) b0) a1) (wshl b0 8) / a0n
    let a0f := a0n >>> 8
    wshl a0f 24 ||| wshl b0n 16 ||| wshl g0n 8 ||| r0n

/-- The spec's exact premultiplied output alpha in 16.8 form:
`a0' = ((a1 + a0) << 8) - a0 * a1`, as an exact integer. -/
def specAlphaOut (a0 a1 : ℤ) : ℤ := (a1 + a0) * 2 ^ 8 - a0 * a1

/-- The spec's exact channel formula
`c0' = (((c1 << 8) - c0) * a1 + (c0 << 8)) / a0'` with truncating
integer division, as an exact integer. -/
def specChannel (c1 c0 a1 d : ℤ) : ℤ := Int.tdiv ((c1 * 2 ^ 8 - c0) * a1 + c0 * 2 ^ 8) d

/-- The spec's exact per-pixel composite for the partial-transparency
branch (claim C1): channels of the bottom pixel premultiplied by its
alpha, the exact integer `a0'` and channel formulas, final alpha
`a0' >> 8`, packed back into the §3 ARGB layout. -/
def specCompositePixel (target source : Nat) : Nat :=
  let a1 : ℤ := ((source >>> 24) &&& 0xff : Nat)
  let r1 : ℤ := (source &&& 0xff : Nat)
  let g1 : ℤ := ((source >>> 8) &&& 0xff : Nat)
  let b1 : ℤ := ((source >>> 16) &&& 0xff : Nat)
  let a0 : ℤ := ((target >>> 24) &&& 0xff : Nat)
  let r0 : ℤ := ((target &&& 0xff : Nat) : ℤ) * a0
  let g0 : ℤ := (((target >>> 8) &&& 0xff : Nat) : ℤ) * a0
  let b0 : ℤ := (((target >>> 16) &&& 0xff : Nat) : ℤ) * a0
  let aOut : ℤ := specAlphaOut a0 a1
  let r' := specChannel r1 r0 a1 aOut
  let g' := specChannel g1 g0 a1 aOut
  let b' := specChannel b1 b0 a1 aOut
  let aFin := Int.tdiv aOut (2 ^ 8)
  aFin.toNat <<< 24 ||| b'.toNat <<< 16 ||| g'.toNat <<< 8 ||| r'.toNat

/-- Value of one hex digit, case-insensitive (the digit classes accepted
by `std::stringstream` with `std::hex`). -/
def hexDigitVal (c : Char) : Option Nat :=
  if 48 ≤ c.toNat ∧ c.toNat ≤ 57 then some (c.toNat - 48)
  else if 97 ≤ c.toNat ∧ c.toNat ≤ 102 then some (c.toNat - 97 + 10)
  else if 65 ≤ c.toNat ∧ c.toNat ≤ 70 then some (c.toNat - 65 + 10)
  else none

/-- Modelled from the spec: the `std::stringstream` hex extraction used
by `hexToUInt32Color` (`ss << std::hex << hex; ss >> color;`, the
stream library itself is not part of this repository).  It reads the
longest leading run of hex digits and accumulates their value; the
inputs the function feeds it are 6 or 8 characters long, so no 32-bit
overflow can occur. -/
def parseHexDigits : List Char → Nat → Nat
  | [], acc => acc
  | c :: cs, acc =>
    match hexDigitVal c with
    | some d => parseHexDigits cs (acc * 16 + d)
    | none => acc

/-- `hexToUInt32Color` (src/src/blend.cpp lines 20-37).  `none` stands
for a null `char *`; the string is a list of characters. -/
def hexToUInt32Color : Option (List Char) → Nat
  | none => 0
  | some hex0 =>
    let hex := if hex0.head? = some '#' then hex0.tail else hex0
    let len := hex.length
    if len ≠ 6 ∧ len ≠ 8 then 0
    else
      let color := parseHexDigits hex 0
      if len = 8 then
        -- Circular shift to get from RGBA to ARGB.
        wshl color 24 ||| wshl (color &&& 0xFF00) 8 ||| (color &&& 0xFF0000) >>> 8 |||
          (color &&& 0xFF000000) >>> 24
      else
        0xFF000000 ||| wshl (color &&& 0xFF) 16 ||| (color &&& 0xFF00) |||
          (color &&& 0xFF0000) >>> 16

/-- C `fmod(x, 1)`: `x` minus `x` truncated toward zero.  The `double`
arithmetic of the tint helpers is embedded as exact rational
arithmetic. -/
def fmod1 (x : ℚ) : ℚ := if 0 ≤ x then x - ⌊x⌋ else x - ⌈x⌉

/-- `hueToRGB` (src/src/blend.cpp lines 87-93). -/
def hueToRGB (m1 m2 h0 : ℚ) : ℚ :=
  let h := fmod1 (h0 + 1)
  if h * 6 < 1 then m1 + (m2 - m1) * h * 6
  else if h * 2 < 1 then m2
  else if h * 3 < 2 then m1 + (m2 - m1) * (0.66666 - h) * 6
  else m1

/-- C `static_cast<unsigned>` of a non-negative `double`: truncation
toward zero. -/
def toUnsigned (q : ℚ) : ℕ := (⌊q⌋).toNat

/-- `hsl2rgb` (src/src/blend.cpp lines 95-107).  The `s == 0` branch in
the source assigns `r = g = b = l * 255` but does not return; control
falls through and the three channels are unconditionally reassigned
from the general `m1`,`m2` reconstruction, so the function's result is
always the general formula. -/
def hsl2rgb (h s l : ℚ) : ℕ × ℕ × ℕ :=
  let m2 := if l ≤ 0.5 then l * (s + 1) else l + s - l * s
  let m1 := l * 2 - m2
  (toUnsigned (hueToRGB m1 m2 (h + 0.33333) * 255),
   toUnsigned (hueToRGB m1 m2 h * 255),
   toUnsigned (hueToRGB m1 m2 (h - 0.33333) * 255))

/-- A layer as it enters `Blend_Composite`: offsets, the decoded
dimensions copied into the image record by `Work_Blend`, and the
decoded ARGB surface (`image->reader->surface`). -/
structure BlitLayer where
  x : Int
  y : Int
  width : Nat
  height : Nat
  surface : List Nat
  deriving DecidableEq

/-- `src_x = std::max(0, -image->x)` (src/src/blend.cpp line 401). -/
def blitSourceX (i : BlitLayer) : Int := max 0 (-i.x)

/-- `src_y = std::max(0, -image->y)` (line 402). -/
def blitSourceY (i : BlitLayer) : Int := max 0 (-i.y)

/-- Blit width (line 405):
`image->width - sourceX - max(0, image->x + image->width - baton->width)`. -/
def blitWidth (i : BlitLayer) (W : Int) : Int :=
  (i.width : Int) - blitSourceX i - max 0 (i.x + i.width - W)

/-- Blit height (line 406). -/
def blitHeight (i : BlitLayer) (H : Int) : Int :=
  (i.height : Int) - blitSourceY i - max 0 (i.y + i.height - H)

/-- `dst_x = std::max(0, image->x)` (line 408). -/
def blitTargetX (i : BlitLayer) : Int := max 0 i.x

/-- `dst_y = std::max(0, image->y)` (line 409). -/
def blitTargetY (i : BlitLayer) : Int := max 0 i.y

/-- Read of `buf[i]`; a C out-of-bounds read is undefined, the model
returns 0 (resp. leaves the list unchanged on an out-of-bounds
write). -/
def getPix (l : List Nat) (i : Int) : Nat := l.getD i.toNat 0

/-- Write of `buf[i] = v`. -/
def setPix (l : List Nat) (i : Int) (v : Nat) : List Nat := l.set i.toNat v

/-- Inner column loop of `Blend_Composite` (lines 413-415):
`Blend_CompositePixel(target[targetPos + x], source[sourcePos + x])`
for `x = 0 .. width-1`. -/
def blitCols (src : List Nat) : Nat → Int → Int → List Nat → List Nat
  | 0, _, _, tgt => tgt
  | n + 1, sp, tp, tgt =>
    blitCols src n (sp + 1) (tp + 1)
      (setPix tgt tp (Blend_CompositePixel (getPix tgt tp) (getPix src sp)))

/-- Row loop of `Blend_Composite` (lines 412-419): after each row
`sourcePos += image->width; targetPos += baton->width`. -/
def blitRows (src : List Nat) (w : Nat) (imgW W : Int) : Nat → Int → Int → List Nat → List Nat
  | 0, _, _, tgt => tgt
  | n + 1, sp, tp, tgt =>
    blitRows src w imgW W n (sp + imgW) (tp + W) (blitCols src w sp tp tgt)

/-- `Blend_Composite` (src/src/blend.cpp lines 398-420). -/
def Blend_Composite (tgt : List Nat) (W H : Int) (img : BlitLayer) : List Nat :=
  let sourcePos := blitSourceY img * img.width + blitSourceX img
  let targetPos := blitTargetY img * W + blitTargetX img
  blitRows img.surface (blitWidth img W).toNat (img.width : Int) W
    (blitHeight img H).toNat sourcePos targetPos tgt

/-- One input layer of a job, together with the observable outputs of
the decoder facade bound to its bytes.  Modelled from the spec (§4.2):
`ImageReader` itself is not part of src/, only its use in
`Work_Blend`; a reader reports header `width`/`height` (0 on a failed
sniff), an `alpha` flag, a fatal `message`, whether `decode()`
succeeds, decode `warnings`, and the decoded ARGB `surface`. -/
structure Image where
  data : List Nat
  x : Int
  y : Int
  rdWidth : Nat
  rdHeight : Nat
  rdAlpha : Bool
  rdMessage : String
  rdDecodeOk : Bool
  rdWarnings : List String
  rdSurface : List Nat
  deriving DecidableEq

/-- The fields of `BlendBaton` that `Work_Blend` reads. -/
structure Baton where
  width : Int
  height : Int
  reencode : Bool
  matte : Nat
  images : List Image
  deriving DecidableEq

/-- Outcome of the back-to-front decode walk of `Work_Blend`:
a fatal decoder error, the pass-through short-circuit (original encoded
bytes written to the stream), or fall-through to compositing with the
final `alpha` flag, canvas dimensions, kept layers (bottom to top) and
collected warnings. -/
inductive WalkOut where
  | err (msg : String)
  | shortCircuit (bytes : List Nat) (warnings : List String)
  | done (alpha : Bool) (width height : Int) (blits : List BlitLayer)
      (warnings : List String)
  deriving DecidableEq

/-- The back-to-front walk of `Work_Blend` (src/src/blend.cpp lines
455-525), processing the reversed layer list with `index` counting down
from `total - 1`.  State: `alpha` accumulator, `size` counter, current
baton width/height, kept blit layers (kept in bottom-to-top order, the
order the later composite loop visits them), warnings. -/
def walkAux (reencode : Bool) :
    List Image → Int → Bool → Nat → Int → Int → List BlitLayer → List String → WalkOut
  | [], _, alpha, _, w, h, blits, warns => .done alpha w h blits warns
  | img :: rest, index, alpha, size, w, h, blits, warns =>
    -- If an image that is higher than the current is opaque, stop altogether.
    if alpha = false then .done alpha w h blits warns
    else
      -- Error out on invalid images.
      if img.rdWidth = 0 ∨ img.rdHeight = 0 then .err img.rdMessage
      else
        let visW : Int := (img.rdWidth : Int) + img.x
        let visH : Int := (img.rdHeight : Int) + img.y
        -- The first image in the viewport sets width/height if not user supplied.
        let w := if w ≤ 0 then max 0 visW else w
        let h := if h ≤ 0 then max 0 visH else h
        -- Skip images that are outside of the viewport.
        if visW ≤ 0 ∨ visH ≤ 0 ∨ img.x ≥ w ∨ img.y ≥ h then
          walkAux reencode rest (index - 1) alpha size w h blits warns
        -- Short-circuit when we're not reencoding.
        else if size = 0 ∧ img.rdAlpha = false ∧ reencode = false ∧
            img.x = 0 ∧ img.y = 0 ∧ (img.rdWidth : Int) = w ∧ (img.rdHeight : Int) = h then
          .shortCircuit img.data warns
        else if img.rdDecodeOk = false then
          .err img.rdMessage
        else
          let warns := warns ++
            img.rdWarnings.map (fun s => "Layer " ++ toString index ++ ": " ++ s)
          let alpha := if img.rdAlpha = false ∧
              (img.x ≤ 0 ∧ visW ≥ w) ∧ (img.y ≤ 0 ∧ visH ≥ h) then false else alpha
          walkAux reencode rest (index - 1) alpha (size + 1) w h
            (⟨img.x, img.y, img.rdWidth, img.rdHeight, img.rdSurface⟩ :: blits) warns

/-- Result of `Work_Blend` as observed by `Work_AfterBlend`: either the
pass-through bytes, or the composited (pre-encode) canvas together with
everything the deterministic tint+encode stage consumes — so equal
values yield equal output byte streams. -/
inductive BlendResult where
  | passthrough (bytes : List Nat) (warnings : List String)
  | image (canvas : List Nat) (alpha : Bool) (width height : Int)
      (warnings : List String)
  deriving DecidableEq

/-- Canvas contents right after the matte step (lines 536-549): when
`alpha` is still set the malloc'd buffer is filled with the matte word,
otherwise it keeps the uninitialized contents `g`. -/
def canvasInit (alpha : Bool) (pixels : Nat) (matte : Nat) (g : Nat → Nat) : List Nat :=
  if alpha then List.replicate pixels matte
  else (List.range pixels).map g

/-- The part of `Work_Blend` after the decode walk (lines 527-581):
dimension check, canvas allocation and matte fill, and the
front-to-back composite loop.  `g` models the uninitialized contents of
the malloc'd canvas. -/
def blendAfterWalk (matte : Nat) (g : Nat → Nat) : WalkOut → Except String BlendResult
  | .err m => .error m
  | .shortCircuit bytes ws => .ok (.passthrough bytes ws)
  | .done alpha w h blits ws =>
    if w * h ≤ 0 then
      .error ("Image dimensions " ++ toString w ++ "x" ++ toString h ++ " are invalid")
    else
      let canvas0 := canvasInit alpha (w * h).toNat matte g
      let canvas := blits.foldl (fun t b => Blend_Composite t w h b) canvas0
      .ok (.image canvas alpha w h ws)

/-- `Work_Blend` (src/src/blend.cpp lines 452-582). -/
def Work_Blend (baton : Baton) (g : Nat → Nat) : Except String BlendResult :=
  blendAfterWalk baton.matte g
    (walkAux baton.reencode baton.images.reverse ((baton.images.length : Int) - 1)
      true 0 baton.width baton.height [] [])

/-- A JavaScript value passed to the completion callback. -/
inductive JsValue where
  | null
  | buffer (bytes : List Nat)
  | warningsArr (ws : List String)
  | errorVal (msg : String)
  deriving DecidableEq

/-- `Work_AfterBlend` (src/src/blend.cpp lines 584-614): the argument
list handed to the callback — three arguments
`(null, buffer, warnings)` when `baton->message` is empty, a single
error argument otherwise. -/
def Work_AfterBlend (message : String) (streamBytes : List Nat)
    (warnings : List String) : List JsValue :=
  if message.length = 0 then [.null, .buffer streamBytes, .warningsArr warnings]
  else [.errorVal message]

/-- One element of the first argument of `blend()`: a raw buffer or an
object with a `buffer` property and offsets. -/
inductive LayerInput where
  | raw (bytes : List Nat)
  | obj (bytes : List Nat) (x y : Int)
  deriving DecidableEq

/-- The synchronous single-buffer echo of `Blend` (src/src/blend.cpp
lines 302-311): with exactly one layer, no `reencode`, and that layer a
plain buffer, the callback is invoked immediately with the argument
list `{Null, buffer}`; otherwise this fast path does not fire. -/
def blendEchoCall (images : List LayerInput) (reencode : Bool) : Option (List JsValue) :=
  match images, reencode with
  | [LayerInput.raw b], false => some [.null, .buffer b]
  | _, _ => none

/-- Output format selector of `BlendBaton`. -/
inductive BlendFormat where
  | png
  | jpeg
  deriving DecidableEq

/-- The format/quality validation of `Blend` (src/src/blend.cpp lines
183-201).  `format = none` models a missing (or non-string) `format`
option, in which case the format keeps its default; the default being
PNG is modelled from the spec (§6: "Output container; default png" —
the `BlendBaton` constructor lives in blend.hpp, which is not part of
src/).  Quality checks run only inside the branch for an explicitly
given format string. -/
def validateFormatQuality (format : Option String) (quality : Int) :
    Except String (BlendFormat × Int) :=
  match format with
  | none => .ok (.png, quality)
  | some f =>
    if f = "jpeg" ∨ f = "jpg" then
      if quality = 0 then .ok (.jpeg, 80)
      else if quality < 0 ∨ quality > 100 then .error "JPEG quality is range 0-100."
      else .ok (.jpeg, quality)
    else if f = "png" then
      if quality = 1 ∨ quality > 256 then
        .error "PNG images must be quantized between 2 and 256 colors."
      else .ok (.png, quality)
    else .error "Invalid output format."

/-- Decoder facade contract (spec §3 invariants and §4.2): when a
decoded layer's `alpha` flag is false the decoder delivered a full
`width*height` surface of fully opaque pixels. -/
def decoderContract (img : Image) : Prop :=
  img.rdAlpha = false →
    img.rdSurface.length = img.rdWidth * img.rdHeight ∧
    ∀ p ∈ img.rdSurface, 0xFF000000 ≤ p

/-- Two pixel buffers of equal length agreeing on the first `k`
cells. -/
def agreeUpTo (l1 l2 : List Nat) (k : Nat) : Prop :=
  l1.length = l2.length ∧ ∀ i < k, l1.getD i 0 = l2.getD i 0

/-! ### Helper lemmas -/

theorem land255_eq_mod (x : Nat) : x &&& 0xff = x % 256 := by
  have h : (0xff : Nat) = 2 ^ 8 - 1 := by norm_num
  rw [h, Nat.and_pow_two_sub_one_eq_mod]

theorem shiftRight_eq_div (x k : Nat) : x >>> k = x / 2 ^ k :=
  Nat.shiftRight_eq_div_pow x k

/-- The byte `mid` sitting at bit offset `k` of a number is recovered by
masking with `0xFF << k`. -/
theorem land_byte_at (hi mid lo k : Nat) (hmid : mid < 256) (hlo : lo < 2 ^ k) :
    (hi * 2 ^ (k + 8) + mid * 2 ^ k + lo) &&& (255 * 2 ^ k) = mid * 2 ^ k := by
  have hsum : 2 ^ k * mid + lo < 2 ^ (k + 8) := by
    have h1 : 2 ^ k * (mid + 1) = 2 ^ k * mid + 2 ^ k := by ring
    have h2 : 2 ^ k * (mid + 1) ≤ 2 ^ k * 256 := Nat.mul_le_mul_left _ (by omega)
    have h3 : (2 : Nat) ^ (k + 8) = 2 ^ k * 256 := by
      rw [pow_add]; norm_num
    omega
  apply Nat.eq_of_testBit_eq
  intro j
  rw [Nat.testBit_and]
  rw [show (255 * 2 ^ k : Nat) = 2 ^ k * 255 from Nat.mul_comm _ _]
  rw [show hi * 2 ^ (k + 8) + mid * 2 ^ k + lo = 2 ^ (k + 8) * hi + (2 ^ k * mid + lo) by ring]
  rw [show mid * 2 ^ k = 2 ^ k * mid from Nat.mul_comm _ _]
  rw [Nat.testBit_mul_pow_two_add _ hsum j, Nat.testBit_mul_pow_two,
    Nat.testBit_mul_pow_two]
  have h255 : (255 : Nat) = 2 ^ 8 - 1 := by norm_num
  rw [h255, Nat.testBit_two_pow_sub_one]
  by_cases hjk : j < k
  · simp [hjk, Nat.not_le_of_lt hjk, Nat.testBit_mul_pow_two_add _ hlo j]
  · have hjk' : k ≤ j := Nat.le_of_not_lt hjk
    by_cases hj8 : j < k + 8
    · have : j - k < 8 := by omega
      simp [hj8, hjk', this, Nat.testBit_mul_pow_two_add _ hlo j, hjk]
    · have hge : ¬ j - k < 8 := by omega
      have hmid' : mid < 2 ^ (j - k) := by
        calc mid < 256 := hmid
        _ = 2 ^ 8 := by norm_num
        _ ≤ 2 ^ (j - k) := Nat.pow_le_pow_right (by omega) (by omega)
      simp [hj8, hjk', hge, Nat.testBit_lt_two_pow hmid']

theorem hexDigitVal_lt (c : Char) (d : Nat) (h : hexDigitVal c = some d) : d < 16 := by
  unfold hexDigitVal at h
  split_ifs at h <;> simp_all <;> omega

/-! ### Claim C2 -/

/-- Claim C2, counterexample: at `S = 0x00000001`, `T = 0x00000002` both
alpha bytes are 0; the claim's second clause (`T`'s alpha byte 0 ⇒ the
composite sets `T` to `S`) fails, because the code's first branch
(source fully transparent) takes precedence and leaves `T` unchanged. -/
theorem composite_trivial_counterexample :
    ((1 : Nat) >>> 24) &&& 0xff = 0 ∧ ((2 : Nat) >>> 24) &&& 0xff = 0 ∧
    Blend_CompositePixel 2 1 = 2 ∧ (2 : Nat) ≠ 1 := by decide

/-- Claim C2, amended: for 32-bit pixels, source alpha 0 leaves the
target unchanged; and when the source alpha is nonzero, source alpha
255 or target alpha 0 makes the composite copy the source bitwise. -/
theorem composite_trivial_cases (s t : Nat) (hs : s < 2 ^ 32) (ht : t < 2 ^ 32) :
    ((s >>> 24) &&& 0xff = 0 → Blend_CompositePixel t s = t) ∧
    ((s >>> 24) &&& 0xff ≠ 0 →
      ((s >>> 24) &&& 0xff = 255 ∨ (t >>> 24) &&& 0xff = 0) →
      Blend_CompositePixel t s = s) := by
  rw [land255_eq_mod, land255_eq_mod, shiftRight_eq_div, shiftRight_eq_div]
  unfold Blend_CompositePixel
  constructor
  · intro h0
    rw [if_pos]
    omega
  · intro hne hcase
    rw [if_neg (by omega), if_pos (by omega)]

/-- Witness for `composite_trivial_cases` at `S = 0xFF112233`,
`T = 0x00000000`. -/
theorem composite_trivial_cases_witness :
    (0xFF112233 : Nat) < 2 ^ 32 ∧ (0 : Nat) < 2 ^ 32 ∧
    Blend_CompositePixel 0 0xFF112233 = 0xFF112233 := by
  refine ⟨by norm_num, by norm_num, ?_⟩
  exact (composite_trivial_cases 0xFF112233 0 (by norm_num) (by norm_num)).2
    (by decide) (by decide)

/-! ### Claim C6 -/

theorem parseHexDigits_cons (c : Char) (cs : List Char) (acc d : Nat)
    (h : hexDigitVal c = some d) :
    parseHexDigits (c :: cs) acc = parseHexDigits cs (acc * 16 + d) := by
  simp [parseHexDigits, h]

theorem hexDigit_ne_hash (c : Char) (d : Nat) (h : hexDigitVal c = some d) : c ≠ '#' := by
  intro hc
  subst hc
  simp [hexDigitVal] at h

/-- Claim C6: the hex color parser returns 0 on null input and on any
length (after an optional leading `#`) other than 6 or 8; a 6-digit
`RRGGBB` yields the ARGB word with alpha forced to `0xFF`, `B` in bits
16–23, `G` in bits 8–15, `R` in bits 0–7; an 8-digit `RRGGBBAA` yields
the same layout with the given alpha in bits 24–31.  The optional `#`
is covered by the `p` flag. -/
theorem hexToUInt32Color_spec :
    hexToUInt32Color none = 0 ∧
    (∀ cs : List Char,
      (if cs.head? = some '#' then cs.tail else cs).length ≠ 6 →
      (if cs.head? = some '#' then cs.tail else cs).length ≠ 8 →
      hexToUInt32Color (some cs) = 0) ∧
    (∀ (p : Bool) (c1 c2 c3 c4 c5 c6 : Char) (d1 d2 d3 d4 d5 d6 : Nat),
      hexDigitVal c1 = some d1 → hexDigitVal c2 = some d2 →
      hexDigitVal c3 = some d3 → hexDigitVal c4 = some d4 →
      hexDigitVal c5 = some d5 → hexDigitVal c6 = some d6 →
      hexToUInt32Color (some ((if p then ['#'] else []) ++ [c1, c2, c3, c4, c5, c6])) =
        0xFF000000 ||| (16 * d5 + d6) <<< 16 ||| (16 * d3 + d4) <<< 8 ||| (16 * d1 + d2)) ∧
    (∀ (p : Bool) (c1 c2 c3 c4 c5 c6 c7 c8 : Char) (d1 d2 d3 d4 d5 d6 d7 d8 : Nat),
      hexDigitVal c1 = some d1 → hexDigitVal c2 = some d2 →
      hexDigitVal c3 = some d3 → hexDigitVal c4 = some d4 →
      hexDigitVal c5 = some d5 → hexDigitVal c6 = some d6 →
      hexDigitVal c7 = some d7 → hexDigitVal c8 = some d8 →
      hexToUInt32Color (some ((if p then ['#'] else []) ++ [c1, c2, c3, c4, c5, c6, c7, c8])) =
        (16 * d7 + d8) <<< 24 ||| (16 * d5 + d6) <<< 16 |||
          (16 * d3 + d4) <<< 8 ||| (16 * d1 + d2)) := by
  refine ⟨rfl, ?_, ?_, ?_⟩
  · intro cs h6 h8
    simp only [hexToUInt32Color]
    rw [if_pos (And.intro h6 h8)]
  · intro p c1 c2 c3 c4 c5 c6 d1 d2 d3 d4 d5 d6 h1 h2 h3 h4 h5 h6
    have b1 := hexDigitVal_lt _ _ h1
    have b2 := hexDigitVal_lt _ _ h2
    have b3 := hexDigitVal_lt _ _ h3
    have b4 := hexDigitVal_lt _ _ h4
    have b5 := hexDigitVal_lt _ _ h5
    have b6 := hexDigitVal_lt _ _ h6
    have hstrip : (if ((if p then ['#'] else []) ++
        [c1, c2, c3, c4, c5, c6] : List Char).head? = some '#'
        then ((if p then ['#'] else []) ++ [c1, c2, c3, c4, c5, c6] : List Char).tail
        else (if p then ['#'] else []) ++ [c1, c2, c3, c4, c5, c6]) =
        [c1, c2, c3, c4, c5, c6] := by
      cases p
      · simp only [Bool.false_eq_true, if_false, List.nil_append]
        rw [if_neg]
        simp only [List.head?_cons, Option.some.injEq]
        exact hexDigit_ne_hash c1 d1 h1
      · simp
    simp only [hexToUInt32Color]
    rw [hstrip]
    have hparse : parseHexDigits [c1, c2, c3, c4, c5, c6] 0 =
        (16 * d1 + d2) * 2 ^ 16 + (16 * d3 + d4) * 2 ^ 8 + (16 * d5 + d6) := by
      rw [parseHexDigits_cons _ _ _ _ h1, parseHexDigits_cons _ _ _ _ h2,
        parseHexDigits_cons _ _ _ _ h3, parseHexDigits_cons _ _ _ _ h4,
        parseHexDigits_cons _ _ _ _ h5, parseHexDigits_cons _ _ _ _ h6]
      unfold parseHexDigits
      ring
    simp only [List.length_cons, List.length_nil]
    rw [if_neg (by omega), if_neg (by omega)]
    rw [hparse]
    set R := 16 * d1 + d2 with hR
    set G := 16 * d3 + d4 with hG
    set B := 16 * d5 + d6 with hB
    have hmB : (R * 2 ^ 16 + G * 2 ^ 8 + B) &&& 0xFF = B := by
      rw [land255_eq_mod]
      omega
    have hmG : (R * 2 ^ 16 + G * 2 ^ 8 + B) &&& 0xFF00 = G * 2 ^ 8 := by
      rw [show (0xFF00 : Nat) = 255 * 2 ^ 8 by norm_num,
        show R * 2 ^ 16 + G * 2 ^ 8 + B = R * 2 ^ (8 + 8) + G * 2 ^ 8 + B by norm_num]
      exact land_byte_at R G B 8 (by omega) (by omega)
    have hmR : (R * 2 ^ 16 + G * 2 ^ 8 + B) &&& 0xFF0000 = R * 2 ^ 16 := by
      rw [show (0xFF0000 : Nat) = 255 * 2 ^ 16 by norm_num,
        show R * 2 ^ 16 + G * 2 ^ 8 + B = 0 * 2 ^ (16 + 8) + R * 2 ^ 16 + (G * 2 ^ 8 + B)
          by ring]
      exact land_byte_at 0 R (G * 2 ^ 8 + B) 16 (by omega) (by omega)
    rw [hmB, hmG, hmR, shiftRight_eq_div,
      Nat.mul_div_cancel _ (by norm_num : (0 : Nat) < 2 ^ 16)]
    unfold wshl
    simp only [Nat.shiftLeft_eq]
    rw [Nat.mod_eq_of_lt (by unfold M32; omega)]
  · intro p c1 c2 c3 c4 c5 c6 c7 c8 d1 d2 d3 d4 d5 d6 d7 d8 h1 h2 h3 h4 h5 h6 h7 h8
    have b1 := hexDigitVal_lt _ _ h1
    have b2 := hexDigitVal_lt _ _ h2
    have b3 := hexDigitVal_lt _ _ h3
    have b4 := hexDigitVal_lt _ _ h4
    have b5 := hexDigitVal_lt _ _ h5
    have b6 := hexDigitVal_lt _ _ h6
    have b7 := hexDigitVal_lt _ _ h7
    have b8 := hexDigitVal_lt _ _ h8
    have hstrip : (if ((if p then ['#'] else []) ++
        [c1, c2, c3, c4, c5, c6, c7, c8] : List Char).head? = some '#'
        then ((if p then ['#'] else []) ++ [c1, c2, c3, c4, c5, c6, c7, c8] : List Char).tail
        else (if p then ['#'] else []) ++ [c1, c2, c3, c4, c5, c6, c7, c8]) =
        [c1, c2, c3, c4, c5, c6, c7, c8] := by
      cases p
      · simp only [Bool.false_eq_true, if_false, List.nil_append]
        rw [if_neg]
        simp only [List.head?_cons, Option.some.injEq]
        exact hexDigit_ne_hash c1 d1 h1
      · simp
    simp only [hexToUInt32Color]
    rw [hstrip]
    have hparse : parseHexDigits [c1, c2, c3, c4, c5, c6, c7, c8] 0 =
        (16 * d1 + d2) * 2 ^ 24 + (16 * d3 + d4) * 2 ^ 16 +
          (16 * d5 + d6) * 2 ^ 8 + (16 * d7 + d8) := by
      rw [parseHexDigits_cons _ _ _ _ h1, parseHexDigits_cons _ _ _ _ h2,
        parseHexDigits_cons _ _ _ _ h3, parseHexDigits_cons _ _ _ _ h4,
        parseHexDigits_cons _ _ _ _ h5, parseHexDigits_cons _ _ _ _ h6,
        parseHexDigits_cons _ _ _ _ h7, parseHexDigits_cons _ _ _ _ h8]
      unfold parseHexDigits
      ring
    simp only [List.length_cons, List.length_nil]
    norm_num
    rw [hparse]
    set R := 16 * d1 + d2 with hR
    set G := 16 * d3 + d4 with hG
    set B := 16 * d5 + d6 with hB
    set A := 16 * d7 + d8 with hA
    have hmG : (R * 2 ^ 24 + G * 2 ^ 16 + B * 2 ^ 8 + A) &&& 0xFF00 = B * 2 ^ 8 := by
      rw [show (0xFF00 : Nat) = 255 * 2 ^ 8 by norm_num,
        show R * 2 ^ 24 + G * 2 ^ 16 + B * 2 ^ 8 + A =
          (R * 2 ^ 8 + G) * 2 ^ (8 + 8) + B * 2 ^ 8 + A by ring]
      exact land_byte_at (R * 2 ^ 8 + G) B A 8 (by omega) (by omega)
    have hmB16 : (R * 2 ^ 24 + G * 2 ^ 16 + B * 2 ^ 8 + A) &&& 0xFF0000 = G * 2 ^ 16 := by
      rw [show (0xFF0000 : Nat) = 255 * 2 ^ 16 by norm_num,
        show R * 2 ^ 24 + G * 2 ^ 16 + B * 2 ^ 8 + A =
          R * 2 ^ (16 + 8) + G * 2 ^ 16 + (B * 2 ^ 8 + A) by ring]
      exact land_byte_at R G (B * 2 ^ 8 + A) 16 (by omega) (by omega)
    have hmR24 : (R * 2 ^ 24 + G * 2 ^ 16 + B * 2 ^ 8 + A) &&& 0xFF000000 = R * 2 ^ 24 := by
      rw [show (0xFF000000 : Nat) = 255 * 2 ^ 24 by norm_num,
        show R * 2 ^ 24 + G * 2 ^ 16 + B * 2 ^ 8 + A =
          0 * 2 ^ (24 + 8) + R * 2 ^ 24 + (G * 2 ^ 16 + B * 2 ^ 8 + A) by ring]
      exact land_byte_at 0 R (G * 2 ^ 16 + B * 2 ^ 8 + A) 24 (by omega) (by omega)
    have hwA : wshl (R * 2 ^ 24 + G * 2 ^ 16 + B * 2 ^ 8 + A) 24 = A * 2 ^ 24 := by
      unfold wshl M32
      rw [Nat.shiftLeft_eq]
      omega
    have hwB : wshl (B * 2 ^ 8) 8 = B * 2 ^ 16 := by
      unfold wshl M32
      rw [Nat.shiftLeft_eq]
      omega
    rw [hwA, hmG, hwB, hmB16, hmR24, shiftRight_eq_div, shiftRight_eq_div,
      Nat.mul_div_cancel _ (by norm_num : (0 : Nat) < 2 ^ 24),
      show G * 2 ^ 16 / 2 ^ 8 = G * 2 ^ 8 by omega]
    simp only [Nat.shiftLeft_eq]

/-- Witness for `hexToUInt32Color_spec`: the 6-digit conjunct at
`"#1A2b3C"` and the bad-length conjunct at `"12345"`. -/
theorem hexToUInt32Color_spec_witness :
    hexToUInt32Color (some ['#', '1', 'A', '2', 'b', '3', 'C']) = 0xFF3C2B1A ∧
    hexToUInt32Color (some ['1', '2', '3', '4', '5']) = 0 := by
  constructor
  · have h := hexToUInt32Color_spec.2.2.1 true '1' 'A' '2' 'b' '3' 'C' 1 10 2 11 3 12
      (by decide) (by decide) (by decide) (by decide) (by decide) (by decide)
    simpa using h
  · exact hexToUInt32Color_spec.2.1 ['1', '2', '3', '4', '5'] (by decide) (by decide)

/-! ### Claim C8 -/

/-- Claim C8, counterexample: the synchronous single-buffer echo path
invokes the callback with two arguments `(null, buffer)` — not the
three-argument `(null, buffer, warnings)` form the claim asserts for
every successful completion. -/
theorem blendEchoCall_counterexample :
    blendEchoCall [LayerInput.raw [1, 2, 3]] false =
      some [JsValue.null, JsValue.buffer [1, 2, 3]] ∧
    ∀ ws : List String,
      some [JsValue.null, JsValue.buffer [1, 2, 3]] ≠
        some [JsValue.null, JsValue.buffer [1, 2, 3], JsValue.warningsArr ws] := by
  constructor
  · rfl
  · intro ws h
    simp at h

/-- Claim C8, amended: jobs that complete through the worker invoke the
callback with exactly `(null, outputBuffer, warningsArray)`; every
failure invokes it with the single error argument; the synchronous
single-layer echo path invokes it with the two arguments
`(null, buffer)`. -/
theorem callback_invocation_spec :
    (∀ bytes ws, Work_AfterBlend "" bytes ws =
      [JsValue.null, JsValue.buffer bytes, JsValue.warningsArr ws]) ∧
    (∀ msg bytes ws, msg.length ≠ 0 → Work_AfterBlend msg bytes ws = [JsValue.errorVal msg]) ∧
    (∀ b, blendEchoCall [LayerInput.raw b] false = some [JsValue.null, JsValue.buffer b]) := by
  refine ⟨fun bytes ws => rfl, ?_, fun b => rfl⟩
  intro msg bytes ws h
  unfold Work_AfterBlend
  rw [if_neg h]

/-- Witness for `callback_invocation_spec` at the failure message
`"boom"`. -/
theorem callback_invocation_spec_witness :
    ("boom".length ≠ 0) ∧ Work_AfterBlend "boom" [5] ["w"] = [JsValue.errorVal "boom"] :=
  ⟨by decide, callback_invocation_spec.2.1 "boom" [5] ["w"] (by decide)⟩

/-! ### Claim C9 -/

/-- Claim C9, counterexample: with no `format` option (PNG being the
default output format) and `quality = 1`, option validation succeeds —
no synchronous `ArgumentError` is raised, contrary to the claim. -/
theorem png_quality_check_counterexample :
    validateFormatQuality none 1 = Except.ok (BlendFormat.png, 1) ∧
    validateFormatQuality none 1 ≠
      Except.error "PNG images must be quantized between 2 and 256 colors." := by
  exact ⟨rfl, by decide⟩

/-- Claim C9, amended: the PNG quantization check fires only when the
`format` option is given as the string `"png"`; in that case quality 1
or quality above 256 raises the `ArgumentError` synchronously. -/
theorem png_quality_check (q : Int) (h : q = 1 ∨ q > 256) :
    validateFormatQuality (some "png") q =
      Except.error "PNG images must be quantized between 2 and 256 colors." := by
  simp only [validateFormatQuality]
  rw [if_pos trivial]
  rw [if_pos h]
  simp

/-- Witness for `png_quality_check` at `q = 1`. -/
theorem png_quality_check_witness :
    ((1 : Int) = 1 ∨ (1 : Int) > 256) ∧
    validateFormatQuality (some "png") 1 =
      Except.error "PNG images must be quantized between 2 and 256 colors." :=
  ⟨Or.inl rfl, png_quality_check 1 (Or.inl rfl)⟩

/-! ### Claim C10 -/

theorem hueToRGB_const (m h : ℚ) : hueToRGB m m h = m := by
  simp only [hueToRGB]
  split_ifs <;> ring

/-- Claim C10: for every `h` and `l ∈ [0,1]`, `hsl2rgb h 0 l` returns
all three channels equal to `l * 255` truncated (not rounded) to
unsigned, even though the source's `s == 0` branch falls through into
the general `m1`,`m2` reconstruction: with `s = 0` both branches of
`m2` collapse to `l`, `m1 = l`, and `hueToRGB` is constant. -/
theorem hsl2rgb_gray (h l : ℚ) (_h0 : 0 ≤ l) (_h1 : l ≤ 1) :
    hsl2rgb h 0 l = ((⌊l * 255⌋).toNat, (⌊l * 255⌋).toNat, (⌊l * 255⌋).toNat) := by
  simp only [hsl2rgb]
  rw [show (if l ≤ 0.5 then l * (0 + 1) else l + 0 - l * 0) = l by split_ifs <;> ring]
  rw [show l * 2 - l = l by ring]
  rw [hueToRGB_const, hueToRGB_const, hueToRGB_const]
  simp [toUnsigned]

/-- Witness for `hsl2rgb_gray` at `h = 0.3`, `l = 1/2`. -/
theorem hsl2rgb_gray_witness :
    (0 ≤ (1 / 2 : ℚ)) ∧ ((1 / 2 : ℚ) ≤ 1) ∧ hsl2rgb 0.3 0 (1 / 2) = (127, 127, 127) := by
  refine ⟨by norm_num, by norm_num, ?_⟩
  rw [hsl2rgb_gray 0.3 (1 / 2) (by norm_num) (by norm_num)]
  norm_num
  decide

/-! ### Claim C7 -/

/-- Claim C7: for a layer that passed the viewport check on a positive
canvas, the clipped blit rectangle (the single `width`/`height` pair
the code uses for both the source and the target rectangle) is
non-negative, every source pixel index touched by the loops lies inside
the `width*height` source surface, every target index lies inside the
`W*H` canvas, and for negative offsets the source clip origin is
`(-x, -y)` with target origin `(0, 0)`. -/
theorem blit_rects_in_bounds (img : BlitLayer) (W H : Int)
    (hW : 0 < W) (hH : 0 < H)
    (hvw : 0 < (img.width : Int) + img.x) (hvh : 0 < (img.height : Int) + img.y)
    (hxW : img.x < W) (hyH : img.y < H) :
    (0 ≤ blitWidth img W ∧ 0 ≤ blitHeight img H) ∧
    (∀ yy xx : Int, 0 ≤ yy → yy < blitHeight img H → 0 ≤ xx → xx < blitWidth img W →
      (0 ≤ (blitSourceY img + yy) * (img.width : Int) + blitSourceX img + xx ∧
        (blitSourceY img + yy) * (img.width : Int) + blitSourceX img + xx <
          (img.width : Int) * (img.height : Int)) ∧
      (0 ≤ (blitTargetY img + yy) * W + blitTargetX img + xx ∧
        (blitTargetY img + yy) * W + blitTargetX img + xx < W * H)) ∧
    (img.x < 0 → blitSourceX img = -img.x ∧ blitTargetX img = 0) ∧
    (img.y < 0 → blitSourceY img = -img.y ∧ blitTargetY img = 0) := by
  unfold blitWidth blitHeight blitSourceX blitSourceY blitTargetX blitTargetY
  have hw0 : (0 : Int) ≤ (img.width : Int) := Int.ofNat_nonneg _
  have hh0 : (0 : Int) ≤ (img.height : Int) := Int.ofNat_nonneg _
  refine ⟨⟨by omega, by omega⟩, ?_, ⟨fun hx => by omega, fun hy => by omega⟩⟩
  intro yy xx hy0 hyb hx0 hxb
  have hsxw : max 0 (-img.x) + xx < (img.width : Int) := by omega
  have hsyh : max 0 (-img.y) + yy < (img.height : Int) := by omega
  have htxw : max 0 img.x + xx < W := by omega
  have htyh : max 0 img.y + yy < H := by omega
  have hsx0 : (0 : Int) ≤ max 0 (-img.x) + xx := by omega
  have hsy0 : (0 : Int) ≤ max 0 (-img.y) + yy := by omega
  have htx0 : (0 : Int) ≤ max 0 img.x + xx := by omega
  have hty0 : (0 : Int) ≤ max 0 img.y + yy := by omega
  refine ⟨⟨?_, ?_⟩, ?_, ?_⟩
  · have := mul_nonneg hsy0 hw0
    linarith
  · have h1 : (max 0 (-img.y) + yy) * (img.width : Int) ≤
        ((img.height : Int) - 1) * (img.width : Int) :=
      mul_le_mul_of_nonneg_right (by omega) hw0
    have h2 : ((img.height : Int) - 1) * (img.width : Int) =
        (img.width : Int) * (img.height : Int) - (img.width : Int) := by ring
    linarith
  · have := mul_nonneg hty0 (le_of_lt hW)
    linarith
  · have h1 : (max 0 img.y + yy) * W ≤ (H - 1) * W :=
      mul_le_mul_of_nonneg_right (by omega) (le_of_lt hW)
    have h2 : (H - 1) * W = W * H - W := by ring
    linarith

/-- Witness for `blit_rects_in_bounds`: a 4×3 layer at `(-1, -2)` on a
2×1 canvas; the source clip is `(1, 2)`, the target clip `(0, 0)`. -/
theorem blit_rects_in_bounds_witness :
    (0 : Int) < 2 ∧ (0 : Int) < 1 ∧
    0 ≤ blitWidth ⟨-1, -2, 4, 3, []⟩ 2 ∧ 0 ≤ blitHeight ⟨-1, -2, 4, 3, []⟩ 1 ∧
    blitSourceX ⟨-1, -2, 4, 3, []⟩ = 1 ∧ blitTargetX ⟨-1, -2, 4, 3, []⟩ = 0 := by
  have h := blit_rects_in_bounds ⟨-1, -2, 4, 3, []⟩ 2 1 (by decide) (by decide)
    (by decide) (by decide) (by decide) (by decide)
  exact ⟨by decide, by decide, h.1.1, h.1.2, (h.2.2.1 (by decide)).1, (h.2.2.1 (by decide)).2⟩

/-! ### Claim C1 -/

theorem wmul_small (a b : Nat) (h : a * b < M32) : wmul a b = a * b :=
  Nat.mod_eq_of_lt h

theorem wshl24_byte (x : Nat) (h : x ≤ 255) : wshl x 24 = x <<< 24 := by
  unfold wshl M32
  rw [Nat.shiftLeft_eq]
  omega

theorem wshl16_byte (x : Nat) (h : x ≤ 255) : wshl x 16 = x <<< 16 := by
  unfold wshl M32
  rw [Nat.shiftLeft_eq]
  omega

theorem wshl8_byte (x : Nat) (h : x ≤ 255) : wshl x 8 = x <<< 8 := by
  unfold wshl M32
  rw [Nat.shiftLeft_eq]
  omega

/-- The code's `a0' = ((a1 + a0) << 8) - a0 * a1` computed in wrapping
32-bit arithmetic equals the exact natural-number value: no wrap occurs
for byte inputs. -/
theorem walpha_eq (a0 a1 : Nat) (h0 : a0 ≤ 255) (h1 : a1 ≤ 255) :
    wsub (wshl (wadd a1 a0) 8) (wmul a0 a1) = (a1 + a0) * 2 ^ 8 - a0 * a1 := by
  have hpl : a0 * a1 ≤ 255 * a1 := Nat.mul_le_mul_right a1 h0
  unfold wsub wshl wadd wmul M32
  rw [Nat.shiftLeft_eq]
  obtain ⟨p, hpeq⟩ : ∃ p, a0 * a1 = p := ⟨_, rfl⟩
  rw [hpeq] at hpl ⊢
  omega

/-- The code's channel numerator `((c1 << 8) - c0)*a1 + (c0 << 8)`
computed in wrapping 32-bit arithmetic equals the exact value
`2^8*(c1*a1) + (2^8 - a1)*c0`: the single possible wrap (the unsigned
subtraction) is cancelled modulo `2^32` by the later addition, and the
exact value fits in 32 bits. -/
theorem wchannel_eq (c1 c0p a1 : Nat) (hc1 : c1 ≤ 255) (hc0 : c0p ≤ 65025)
    (ha1u : a1 ≤ 254) :
    wadd (wmul (wsub (wshl c1 8) c0p) a1) (wshl c0p 8) =
      2 ^ 8 * (c1 * a1) + (2 ^ 8 - a1) * c0p := by
  have hsub : wsub (wshl c1 8) c0p = (c1 * 2 ^ 8 + (4294967296 - c0p)) % 4294967296 := by
    unfold wsub wshl M32
    rw [Nat.shiftLeft_eq]
    omega
  rw [hsub]
  unfold wadd wmul wshl M32
  rw [Nat.mod_mul_mod, Nat.shiftLeft_eq, ← Nat.add_mod]
  have key : (c1 * 2 ^ 8 + (4294967296 - c0p)) * a1 + c0p * 2 ^ 8 =
      4294967296 * a1 + (2 ^ 8 * (c1 * a1) + (2 ^ 8 - a1) * c0p) := by
    zify [show c0p ≤ 4294967296 by omega, show a1 ≤ 2 ^ 8 by omega]
    ring
  rw [key, Nat.mul_add_mod]
  apply Nat.mod_eq_of_lt
  obtain ⟨u, hu⟩ : ∃ u, c1 * a1 = u := ⟨_, rfl⟩
  have hbu : u ≤ 255 * 254 := hu ▸ Nat.mul_le_mul hc1 ha1u
  obtain ⟨v, hv⟩ : ∃ v, (2 ^ 8 - a1) * c0p = v := ⟨_, rfl⟩
  have hbv : v ≤ 256 * 65025 := hv ▸ Nat.mul_le_mul (show 2 ^ 8 - a1 ≤ 256 by omega) hc0
  rw [hu, hv]
  omega

/-- The spec's `a0'` as an integer is the cast of the exact natural
value. -/
theorem specAlphaOut_eq_cast (a0 a1 : Nat) (ha1u : a1 ≤ 256) :
    specAlphaOut (a0 : ℤ) (a1 : ℤ) = (((a1 + a0) * 2 ^ 8 - a0 * a1 : Nat) : ℤ) := by
  have h : a0 * a1 ≤ (a1 + a0) * 2 ^ 8 :=
    Nat.mul_le_mul (Nat.le_add_left a0 a1) (by omega)
  unfold specAlphaOut
  rw [Nat.cast_sub h]
  push_cast
  ring

/-- The spec's truncating-division channel formula, evaluated at
premultiplied byte inputs, is the cast of the corresponding
natural-number division. -/
theorem specChannel_eq_nat (c1 c0p a0 a1 : Nat) (ha1u : a1 ≤ 254) :
    (specChannel (c1 : ℤ) (c0p : ℤ) (a1 : ℤ) (specAlphaOut (a0 : ℤ) (a1 : ℤ))).toNat =
      (2 ^ 8 * (c1 * a1) + (2 ^ 8 - a1) * c0p) / ((a1 + a0) * 2 ^ 8 - a0 * a1) := by
  have hV : (((2 ^ 8 * (c1 * a1) + (2 ^ 8 - a1) * c0p : Nat)) : ℤ) =
      ((c1 : ℤ) * 2 ^ 8 - c0p) * a1 + c0p * 2 ^ 8 := by
    rw [Nat.cast_add, Nat.cast_mul (2 ^ 8 - a1), Nat.cast_sub (show a1 ≤ 2 ^ 8 by omega)]
    push_cast
    ring
  unfold specChannel
  rw [specAlphaOut_eq_cast a0 a1 (by omega), ← hV, ← Int.ofNat_tdiv]
  exact Int.toNat_natCast _

/-- Positivity of the spec divisor `a0'` for alphas in the
partial-transparency branch. -/
theorem alpha_divisor_pos (a0 a1 : Nat) (ha0l : 1 ≤ a0) (ha1l : 1 ≤ a1)
    (ha1u : a1 ≤ 254) :
    0 < specAlphaOut (a0 : ℤ) (a1 : ℤ) := by
  unfold specAlphaOut
  have h0 : (1 : ℤ) ≤ (a0 : ℤ) := by exact_mod_cast ha0l
  have h1 : (1 : ℤ) ≤ (a1 : ℤ) := by exact_mod_cast ha1l
  have h2 : (a1 : ℤ) ≤ 254 := by exact_mod_cast ha1u
  nlinarith [mul_nonneg (by linarith : (0 : ℤ) ≤ (a0 : ℤ) - 1) (by linarith : (0 : ℤ) ≤ 256 - (a1 : ℤ))]

/-- The exact `a0'` is at most `0xFFFE`, so `a0' >> 8` is a byte. -/
theorem alpha_le (a0 a1 : Nat) (ha0l : 1 ≤ a0) (ha0u : a0 ≤ 255)
    (ha1l : 1 ≤ a1) (ha1u : a1 ≤ 254) :
    wsub (wshl (wadd a1 a0) 8) (wmul a0 a1) >>> 8 ≤ 255 := by
  rw [walpha_eq a0 a1 ha0u (by omega), shiftRight_eq_div]
  have hDle : (a1 + a0) * 2 ^ 8 - a0 * a1 ≤ 65534 := by
    zify [Nat.mul_le_mul (Nat.le_add_left a0 a1) (show a1 ≤ 2 ^ 8 by omega)]
    have h0 : (a0 : ℤ) ≤ 255 := by exact_mod_cast ha0u
    have h1 : (a1 : ℤ) ≤ 254 := by exact_mod_cast ha1u
    have h2 : (1 : ℤ) ≤ (a0 : ℤ) := by exact_mod_cast ha0l
    have h3 : (1 : ℤ) ≤ (a1 : ℤ) := by exact_mod_cast ha1l
    nlinarith [mul_nonneg (by linarith : (0 : ℤ) ≤ 255 - (a0 : ℤ))
      (by linarith : (0 : ℤ) ≤ 254 - (a1 : ℤ))]
  omega

/-- The code's final-alpha byte equals the spec's `a0' >> 8`. -/
theorem alpha_full (a0 a1 : Nat) (ha0u : a0 ≤ 255) (ha1u : a1 ≤ 254) :
    wsub (wshl (wadd a1 a0) 8) (wmul a0 a1) >>> 8 =
      (Int.tdiv (specAlphaOut (a0 : ℤ) (a1 : ℤ)) (2 ^ 8)).toNat := by
  rw [walpha_eq a0 a1 ha0u (by omega), shiftRight_eq_div,
    specAlphaOut_eq_cast a0 a1 (by omega),
    show ((2 : ℤ) ^ 8) = ((2 ^ 8 : Nat) : ℤ) by norm_num, ← Int.ofNat_tdiv]
  exact (Int.toNat_natCast _).symm

/-- The code's channel value (wrapping arithmetic, unsigned division)
equals the spec's exact truncating-division formula at the same
bytes. -/
theorem channel_full (c1 c0b a0 a1 : Nat) (hc1 : c1 ≤ 255) (hc0 : c0b ≤ 255)
    (ha0u : a0 ≤ 255) (ha1u : a1 ≤ 254) :
    wadd (wmul (wsub (wshl c1 8) (wmul c0b a0)) a1) (wshl (wmul c0b a0) 8) /
      wsub (wshl (wadd a1 a0) 8) (wmul a0 a1) =
    (specChannel (c1 : ℤ) ((c0b : ℤ) * (a0 : ℤ)) (a1 : ℤ)
      (specAlphaOut (a0 : ℤ) (a1 : ℤ))).toNat := by
  have hc0p : c0b * a0 ≤ 65025 := Nat.mul_le_mul hc0 ha0u
  rw [wmul_small c0b a0 (by unfold M32; omega)]
  rw [walpha_eq a0 a1 ha0u (by omega), wchannel_eq c1 (c0b * a0) a1 hc1 hc0p ha1u]
  rw [show ((c0b : ℤ) * (a0 : ℤ)) = ((c0b * a0 : Nat) : ℤ) by push_cast; ring]
  rw [specChannel_eq_nat c1 (c0b * a0) a0 a1 ha1u]

/-- The code's channel value is a byte (the numerator is at most 255
times the divisor). -/
theorem channel_le (c1 c0b a0 a1 : Nat) (hc1 : c1 ≤ 255) (hc0 : c0b ≤ 255)
    (ha0l : 1 ≤ a0) (ha0u : a0 ≤ 255) (ha1l : 1 ≤ a1) (ha1u : a1 ≤ 254) :
    wadd (wmul (wsub (wshl c1 8) (wmul c0b a0)) a1) (wshl (wmul c0b a0) 8) /
      wsub (wshl (wadd a1 a0) 8) (wmul a0 a1) ≤ 255 := by
  have hc0p : c0b * a0 ≤ 65025 := Nat.mul_le_mul hc0 ha0u
  rw [wmul_small c0b a0 (by unfold M32; omega)]
  rw [walpha_eq a0 a1 ha0u (by omega), wchannel_eq c1 (c0b * a0) a1 hc1 hc0p ha1u]
  have hDpos : 0 < (a1 + a0) * 2 ^ 8 - a0 * a1 := by
    have hpl : a0 * a1 ≤ 255 * a1 := Nat.mul_le_mul_right a1 ha0u
    obtain ⟨p, hpeq⟩ : ∃ p, a0 * a1 = p := ⟨_, rfl⟩
    rw [hpeq] at hpl ⊢
    omega
  have hVle : 2 ^ 8 * (c1 * a1) + (2 ^ 8 - a1) * (c0b * a0) ≤
      255 * ((a1 + a0) * 2 ^ 8 - a0 * a1) := by
    zify [Nat.mul_le_mul (Nat.le_add_left a0 a1) (show a1 ≤ 2 ^ 8 by omega),
      show a1 ≤ 2 ^ 8 by omega]
    have hz1 : (c1 : ℤ) ≤ 255 := by exact_mod_cast hc1
    have hz2 : (c0b : ℤ) ≤ 255 := by exact_mod_cast hc0
    have hz3 : (a1 : ℤ) ≤ 254 := by exact_mod_cast ha1u
    have hz4 : (0 : ℤ) ≤ (a1 : ℤ) := Int.ofNat_nonneg _
    have hz5 : (0 : ℤ) ≤ (a0 : ℤ) := Int.ofNat_nonneg _
    have h1 : (c1 : ℤ) * a1 ≤ 255 * a1 := mul_le_mul_of_nonneg_right hz1 hz4
    have h2 : (c0b : ℤ) * a0 ≤ 255 * a0 := mul_le_mul_of_nonneg_right hz2 hz5
    have h3 : (0 : ℤ) ≤ 256 - (a1 : ℤ) := by linarith
    have h4 : (256 - (a1 : ℤ)) * ((c0b : ℤ) * a0) ≤ (256 - (a1 : ℤ)) * (255 * a0) :=
      mul_le_mul_of_nonneg_left h2 h3
    nlinarith [h1, h4]
  have := (Nat.div_lt_iff_lt_mul hDpos).2
    (show 2 ^ 8 * (c1 * a1) + (2 ^ 8 - a1) * (c0b * a0) <
      256 * ((a1 + a0) * 2 ^ 8 - a0 * a1) by omega)
  omega

/-- Claim C1: for source alpha in 1..254 and target alpha in 1..255
(the partial-transparency branch), the per-pixel composite computed
with 32-bit unsigned modular arithmetic equals the spec's exact integer
formula, and the divisor `a0'` is positive (in particular nonzero):
no intermediate wrap modulo `2^32` changes the result. -/
theorem composite_partial_exact (t s : Nat)
    (hs1 : 0x00FFFFFF < s) (hs2 : s < 0xFF000000)
    (ht1 : 0x00FFFFFF < t) (ht2 : t < 2 ^ 32) :
    Blend_CompositePixel t s = specCompositePixel t s ∧
    0 < specAlphaOut (((t >>> 24) &&& 0xff : Nat) : ℤ) (((s >>> 24) &&& 0xff : Nat) : ℤ) := by
  have ha1l : 1 ≤ (s >>> 24) &&& 0xff := by rw [land255_eq_mod, shiftRight_eq_div]; omega
  have ha1u : (s >>> 24) &&& 0xff ≤ 254 := by rw [land255_eq_mod, shiftRight_eq_div]; omega
  have ha0l : 1 ≤ (t >>> 24) &&& 0xff := by rw [land255_eq_mod, shiftRight_eq_div]; omega
  have ha0u : (t >>> 24) &&& 0xff ≤ 255 := by rw [land255_eq_mod, shiftRight_eq_div]; omega
  have hr1 : s &&& 0xff ≤ 255 := by rw [land255_eq_mod]; omega
  have hg1 : (s >>> 8) &&& 0xff ≤ 255 := by rw [land255_eq_mod]; omega
  have hb1 : (s >>> 16) &&& 0xff ≤ 255 := by rw [land255_eq_mod]; omega
  have hr0 : t &&& 0xff ≤ 255 := by rw [land255_eq_mod]; omega
  have hg0 : (t >>> 8) &&& 0xff ≤ 255 := by rw [land255_eq_mod]; omega
  have hb0 : (t >>> 16) &&& 0xff ≤ 255 := by rw [land255_eq_mod]; omega
  constructor
  · simp only [Blend_CompositePixel, specCompositePixel]
    rw [if_neg (show ¬ s ≤ 0x00FFFFFF by omega)]
    rw [if_neg (show ¬ (0xFF000000 ≤ s ∨ t ≤ 0x00FFFFFF) by omega)]
    rw [wshl24_byte _ (alpha_le _ _ ha0l ha0u ha1l ha1u)]
    rw [wshl16_byte _ (channel_le _ _ _ _ hb1 hb0 ha0l ha0u ha1l ha1u)]
    rw [wshl8_byte _ (channel_le _ _ _ _ hg1 hg0 ha0l ha0u ha1l ha1u)]
    rw [alpha_full _ _ ha0u ha1u]
    rw [channel_full _ _ _ _ hb1 hb0 ha0u ha1u]
    rw [channel_full _ _ _ _ hg1 hg0 ha0u ha1u]
    rw [channel_full _ _ _ _ hr1 hr0 ha0u ha1u]
  · exact alpha_divisor_pos _ _ ha0l ha1l ha1u

/-- Witness for `composite_partial_exact` at `S = 0x80FF0000`,
`T = 0x40008000`. -/
theorem composite_partial_exact_witness :
    0x00FFFFFF < (0x80FF0000 : Nat) ∧ (0x80FF0000 : Nat) < 0xFF000000 ∧
    0x00FFFFFF < (0x40008000 : Nat) ∧ (0x40008000 : Nat) < 2 ^ 32 ∧
    Blend_CompositePixel 0x40008000 0x80FF0000 =
      specCompositePixel 0x40008000 0x80FF0000 := by
  refine ⟨by norm_num, by norm_num, by norm_num, by norm_num, ?_⟩
  exact (composite_partial_exact 0x40008000 0x80FF0000 (by norm_num) (by norm_num)
    (by norm_num) (by norm_num)).1

/-! ### The decode walk: shared lemmas -/

/-- Once the `alpha` accumulator is cleared the walk stops immediately:
`if (!alpha) break;`. -/
theorem walkAux_alpha_false (re : Bool) (l : List Image) (i : Int) (s : Nat)
    (w h : Int) (bl : List BlitLayer) (ws : List String) :
    walkAux re l i false s w h bl ws = .done false w h bl ws := by
  cases l <;> simp [walkAux]

/-- Layers whose viewport check fails are dropped without changing any
other walk state (except the running index). -/
theorem walkAux_skip_all (re : Bool) (W H : Int) (hW : 0 < W) (hH : 0 < H)
    (pre : List Image)
    (hpre : ∀ a ∈ pre, a.rdWidth ≠ 0 ∧ a.rdHeight ≠ 0 ∧
      ((a.rdWidth : Int) + a.x ≤ 0 ∨ (a.rdHeight : Int) + a.y ≤ 0 ∨ a.x ≥ W ∨ a.y ≥ H)) :
    ∀ (rest : List Image) (idx : Int) (size : Nat) (bl : List BlitLayer) (ws : List String),
      walkAux re (pre ++ rest) idx true size W H bl ws =
        walkAux re rest (idx - pre.length) true size W H bl ws := by
  induction pre with
  | nil => intro rest idx size bl ws; simp
  | cons a pre ih =>
    intro rest idx size bl ws
    obtain ⟨hw0, hh0, hskip⟩ := hpre a (List.mem_cons_self a pre)
    have hmem : ∀ x ∈ pre, x.rdWidth ≠ 0 ∧ x.rdHeight ≠ 0 ∧
        ((x.rdWidth : Int) + x.x ≤ 0 ∨ (x.rdHeight : Int) + x.y ≤ 0 ∨ x.x ≥ W ∨ x.y ≥ H) :=
      fun x hx => hpre x (List.mem_cons_of_mem a hx)
    rw [List.cons_append]
    simp only [walkAux]
    rw [if_neg (show ¬(true = false) by decide)]
    rw [if_neg (show ¬(a.rdWidth = 0 ∨ a.rdHeight = 0) by omega)]
    rw [if_neg (show ¬(W ≤ 0) by omega)]
    rw [if_neg (show ¬(H ≤ 0) by omega)]
    rw [if_pos hskip]
    rw [ih hmem rest (idx - 1) size bl ws,
      show idx - 1 - (pre.length : Int) = idx - ((a :: pre).length : Int) by
        push_cast [List.length_cons]; ring]

/-! ### Claim C3 -/

/-- Claim C3: with `reencode` false, user-supplied positive canvas
dimensions, every higher layer dropped by the viewport check (so the
walk reaches `L` with `size = 0`), `L` reporting no alpha, offsets
`(0,0)` and dimensions exactly the canvas's, the job terminates
successfully with output exactly `L`'s original encoded bytes — `L`'s
pixels are never decoded (the theorem holds for any `rdDecodeOk` and
any `rdSurface` of `L`). -/
theorem passthrough_shortCircuit
    (above below : List Image) (L : Image) (W H : Int) (matte : Nat) (g : Nat → Nat)
    (hW : 0 < W) (hH : 0 < H)
    (habove : ∀ a ∈ above, a.rdWidth ≠ 0 ∧ a.rdHeight ≠ 0 ∧
      ((a.rdWidth : Int) + a.x ≤ 0 ∨ (a.rdHeight : Int) + a.y ≤ 0 ∨ a.x ≥ W ∨ a.y ≥ H))
    (hLa : L.rdAlpha = false) (hLx : L.x = 0) (hLy : L.y = 0)
    (hLw : (L.rdWidth : Int) = W) (hLh : (L.rdHeight : Int) = H) :
    Work_Blend ⟨W, H, false, matte, below ++ L :: above⟩ g =
      .ok (.passthrough L.data []) := by
  unfold Work_Blend
  simp only
  rw [show (below ++ L :: above).reverse = above.reverse ++ (L :: below.reverse) by simp]
  rw [walkAux_skip_all false W H hW hH above.reverse
    (fun a ha => habove a (List.mem_reverse.mp ha)) (L :: below.reverse) _ 0 [] []]
  simp only [walkAux]
  rw [if_neg (show ¬(L.rdWidth = 0 ∨ L.rdHeight = 0) by omega)]
  rw [if_neg (show ¬(W ≤ 0) by omega)]
  rw [if_neg (show ¬(H ≤ 0) by omega)]
  rw [if_neg (show ¬((L.rdWidth : Int) + L.x ≤ 0 ∨ (L.rdHeight : Int) + L.y ≤ 0 ∨
    L.x ≥ W ∨ L.y ≥ H) by omega)]
  rw [if_neg (show ¬(true = false) by decide)]
  rw [if_pos (show True ∧ L.rdAlpha = false ∧ True ∧ L.x = 0 ∧ L.y = 0 ∧
    (L.rdWidth : Int) = W ∧ (L.rdHeight : Int) = H from
    ⟨trivial, hLa, trivial, hLx, hLy, hLw, hLh⟩)]
  rfl

/-- Witness for `passthrough_shortCircuit`: one viewport-skipped layer
above `L`, one arbitrary layer below, a 2×2 canvas; `L`'s decode is
even marked as failing — its pixels are not needed. -/
theorem passthrough_shortCircuit_witness :
    Work_Blend ⟨2, 2, false, 7,
      [⟨[5], 0, 0, 3, 3, true, "below-msg", false, [], []⟩,
       ⟨[1, 2, 3], 0, 0, 2, 2, false, "m", false, ["warn"], []⟩,
       ⟨[9], 5, 5, 4, 4, true, "above-msg", true, [], []⟩]⟩ (fun _ => 0) =
      .ok (.passthrough [1, 2, 3] []) := by
  exact passthrough_shortCircuit
    [⟨[9], 5, 5, 4, 4, true, "above-msg", true, [], []⟩]
    [⟨[5], 0, 0, 3, 3, true, "below-msg", false, [], []⟩]
    ⟨[1, 2, 3], 0, 0, 2, 2, false, "m", false, ["warn"], []⟩
    2 2 7 (fun _ => 0) (by decide) (by decide)
    (by intro a ha; simp at ha; subst ha; refine ⟨by decide, by decide, ?_⟩; right; right; left; decide)
    rfl rfl rfl (by decide) (by decide)

/-! ### Claim C5 -/

/-- Claim C5: the matte word is written to every canvas pixel iff the
`alpha` accumulator is still set after the decode walk.  Part 1: with
the flag set, the canvas right after the fill step is `matte` at every
pixel.  Part 2: if the walk clears the flag, the job's result does not
depend on the matte at all (no pixel is filled with it), even though
the caller set matte and reencode.  Part 3: with the flag set, the
whole job composites over an all-matte canvas. -/
theorem matte_fill_iff_alpha :
    (∀ (pixels matte : Nat) (g : Nat → Nat),
      canvasInit true pixels matte g = List.replicate pixels matte) ∧
    (∀ (W H : Int) (re : Bool) (imgs : List Image) (g : Nat → Nat) (m1 m2 : Nat)
      (w h : Int) (bl : List BlitLayer) (ws : List String),
      walkAux re imgs.reverse ((imgs.length : Int) - 1) true 0 W H [] [] =
        .done false w h bl ws →
      Work_Blend ⟨W, H, re, m1, imgs⟩ g = Work_Blend ⟨W, H, re, m2, imgs⟩ g) ∧
    (∀ (W H : Int) (re : Bool) (imgs : List Image) (g : Nat → Nat) (matte : Nat)
      (w h : Int) (bl : List BlitLayer) (ws : List String),
      walkAux re imgs.reverse ((imgs.length : Int) - 1) true 0 W H [] [] =
        .done true w h bl ws →
      0 < w * h →
      Work_Blend ⟨W, H, re, matte, imgs⟩ g =
        .ok (.image (bl.foldl (fun t b => Blend_Composite t w h b)
          (List.replicate (w * h).toNat matte)) true w h ws)) := by
  refine ⟨fun pixels matte g => by simp [canvasInit], ?_, ?_⟩
  · intro W H re imgs g m1 m2 w h bl ws hwalk
    unfold Work_Blend
    simp only
    rw [hwalk]
    simp only [blendAfterWalk, canvasInit]
    rfl
  · intro W H re imgs g matte w h bl ws hwalk hpix
    unfold Work_Blend
    simp only
    rw [hwalk]
    simp only [blendAfterWalk, canvasInit]
    rw [if_neg (show ¬(w * h ≤ 0) by omega)]
    rfl

/-- Witness for `matte_fill_iff_alpha`: the matte-independence part at
a concrete job with a fully opaque covering 1×1 layer (flag cleared),
with `reencode = true` and two different mattes, plus the flag-set part
at a transparent 1×1 layer. -/
theorem matte_fill_iff_alpha_witness :
    (walkAux true [⟨[9], 0, 0, 1, 1, false, "", true, [], [0xFF000005]⟩].reverse
        ((([⟨[9], 0, 0, 1, 1, false, "", true, [], [0xFF000005]⟩] : List Image).length : Int) - 1)
        true 0 1 1 [] [] =
      .done false 1 1 [⟨0, 0, 1, 1, [0xFF000005]⟩] []) ∧
    Work_Blend ⟨1, 1, true, 0xFFFF0000, [⟨[9], 0, 0, 1, 1, false, "", true, [], [0xFF000005]⟩]⟩
        (fun _ => 3) =
      Work_Blend ⟨1, 1, true, 0xFF00FF00, [⟨[9], 0, 0, 1, 1, false, "", true, [], [0xFF000005]⟩]⟩
        (fun _ => 3) := by
  constructor
  · decide
  · exact matte_fill_iff_alpha.2.1 1 1 true
      [⟨[9], 0, 0, 1, 1, false, "", true, [], [0xFF000005]⟩] (fun _ => 3)
      0xFFFF0000 0xFF00FF00 1 1 [⟨0, 0, 1, 1, [0xFF000005]⟩] [] (by decide)

/-! ### Claim C4: blit overwrite machinery -/

/-- A fully opaque source pixel replaces the target unconditionally. -/
theorem opaqueSourceReplaces (t s : Nat) (h : 0xFF000000 ≤ s) : Blend_CompositePixel t s = s := by
  unfold Blend_CompositePixel
  rw [if_neg (by omega), if_pos (Or.inl h)]

theorem blitCols_length (src : List Nat) :
    ∀ (n : Nat) (sp tp : Int) (tgt : List Nat),
      (blitCols src n sp tp tgt).length = tgt.length := by
  intro n
  induction n with
  | zero => intro sp tp tgt; rfl
  | succ n ih =>
    intro sp tp tgt
    simp only [blitCols]
    rw [ih]
    simp [setPix]

theorem blitRows_length (src : List Nat) (w : Nat) (imgW W : Int) :
    ∀ (n : Nat) (sp tp : Int) (tgt : List Nat),
      (blitRows src w imgW W n sp tp tgt).length = tgt.length := by
  intro n
  induction n with
  | zero => intro sp tp tgt; rfl
  | succ n ih =>
    intro sp tp tgt
    simp only [blitRows]
    rw [ih, blitCols_length]

theorem agreeUpTo_set (t1 t2 : List Nat) (k : Nat) (v : Nat)
    (h : agreeUpTo t1 t2 k) :
    agreeUpTo (t1.set k v) (t2.set k v) (k + 1) := by
  obtain ⟨hlen, hag⟩ := h
  refine ⟨by simp [hlen], ?_⟩
  intro i hi
  simp only [List.getD_eq_getElem?_getD]
  rcases Nat.lt_or_ge i k with hlt | hge
  · rw [List.getElem?_set_ne (by omega), List.getElem?_set_ne (by omega)]
    have := hag i hlt
    simpa [List.getD_eq_getElem?_getD] using this
  · have hik : i = k := by omega
    subst hik
    rw [List.getElem?_set_self', List.getElem?_set_self']
    rcases Nat.lt_or_ge i t1.length with h1 | h1
    · rw [List.getElem?_eq_getElem h1, List.getElem?_eq_getElem (show i < t2.length by omega)]
      simp
    · rw [List.getElem?_eq_none h1, List.getElem?_eq_none (show t2.length ≤ i by omega)]

/-- The inner blit loop writes only opaque source pixels: the two
target buffers agree on everything written so far afterwards,
independently of their previous contents there. -/
theorem blitCols_agree (src : List Nat) :
    ∀ (n : Nat) (sp tp : Int) (t1 t2 : List Nat),
      0 ≤ tp →
      (∀ k : Nat, k < n → 0xFF000000 ≤ getPix src (sp + k)) →
      agreeUpTo t1 t2 tp.toNat →
      agreeUpTo (blitCols src n sp tp t1) (blitCols src n sp tp t2) (tp.toNat + n) := by
  intro n
  induction n with
  | zero =>
    intro sp tp t1 t2 htp hop h
    simpa [blitCols] using h
  | succ n ih =>
    intro sp tp t1 t2 htp hop h
    simp only [blitCols]
    have hs : 0xFF000000 ≤ getPix src sp := by
      have := hop 0 (Nat.succ_pos n)
      simpa using this
    rw [opaqueSourceReplaces _ _ hs, opaqueSourceReplaces _ _ hs]
    have hstep : agreeUpTo (setPix t1 tp (getPix src sp)) (setPix t2 tp (getPix src sp))
        (tp + 1).toNat := by
      rw [show (tp + 1).toNat = tp.toNat + 1 by omega]
      exact agreeUpTo_set t1 t2 tp.toNat (getPix src sp) h
    have hop' : ∀ k : Nat, k < n → 0xFF000000 ≤ getPix src (sp + 1 + k) := by
      intro k hk
      have := hop (k + 1) (by omega)
      rwa [show sp + ((k + 1 : Nat) : Int) = sp + 1 + (k : Int) by push_cast; ring] at this
    have := ih (sp + 1) (tp + 1) _ _ (by omega) hop' hstep
    rwa [show (tp + 1).toNat + n = tp.toNat + (n + 1) by omega] at this

/-- Row-loop version of `blitCols_agree` for the covering case, where
the canvas stride equals the blit width. -/
theorem blitRows_agree (src : List Nat) (w : Nat) (imgW : Int) :
    ∀ (n : Nat) (sp tp : Int) (t1 t2 : List Nat),
      0 ≤ tp →
      (∀ r k : Nat, r < n → k < w → 0xFF000000 ≤ getPix src (sp + (r : Int) * imgW + k)) →
      agreeUpTo t1 t2 tp.toNat →
      agreeUpTo (blitRows src w imgW (w : Int) n sp tp t1)
        (blitRows src w imgW (w : Int) n sp tp t2) (tp.toNat + n * w) := by
  intro n
  induction n with
  | zero =>
    intro sp tp t1 t2 htp hop h
    simpa [blitRows] using h
  | succ n ih =>
    intro sp tp t1 t2 htp hop h
    simp only [blitRows]
    have hcols := blitCols_agree src w sp tp t1 t2 htp
      (fun k hk => by
        have := hop 0 k (Nat.succ_pos n) hk
        simpa using this) h
    have hrec := ih (sp + imgW) (tp + (w : Int)) _ _ (by omega)
      (fun r k hr hk => by
        have := hop (r + 1) k (by omega) hk
        rwa [show sp + ((r + 1 : Nat) : Int) * imgW + (k : Int) =
          sp + imgW + (r : Nat) * imgW + k by push_cast; ring] at this)
      (by rw [show (tp + (w : Int)).toNat = tp.toNat + w by omega]; exact hcols)
    rwa [show (tp + (w : Int)).toNat + n * w = tp.toNat + (n + 1) * w by
      rw [Nat.succ_mul]; omega] at hrec

theorem agreeUpTo_full_eq (l1 l2 : List Nat) (k : Nat)
    (h : agreeUpTo l1 l2 k) (hlen : l1.length ≤ k) : l1 = l2 := by
  obtain ⟨hl, hp⟩ := h
  apply List.ext_getElem hl
  intro i h1 h2
  have := hp i (by omega)
  simp only [List.getD_eq_getElem?_getD] at this
  rw [List.getElem?_eq_getElem h1, List.getElem?_eq_getElem h2] at this
  simpa using this

/-- A fully opaque layer covering the whole canvas overwrites every
canvas pixel: the blit result does not depend on the previous canvas
contents. -/
theorem Blend_Composite_cover (C : BlitLayer) (W H : Int) (t1 t2 : List Nat)
    (hW : 0 < W) (hH : 0 < H)
    (hx : C.x ≤ 0) (hy : C.y ≤ 0)
    (hcw : W ≤ (C.width : Int) + C.x) (hch : H ≤ (C.height : Int) + C.y)
    (hlen1 : t1.length = (W * H).toNat) (hlen2 : t2.length = (W * H).toNat)
    (hsurf : C.surface.length = C.width * C.height)
    (hop : ∀ p ∈ C.surface, 0xFF000000 ≤ p) :
    Blend_Composite t1 W H C = Blend_Composite t2 W H C := by
  unfold Blend_Composite
  have hsx : blitSourceX C = -C.x := by unfold blitSourceX; omega
  have hsy : blitSourceY C = -C.y := by unfold blitSourceY; omega
  have hbw : blitWidth C W = W := by unfold blitWidth blitSourceX; omega
  have hbh : blitHeight C H = H := by unfold blitHeight blitSourceY; omega
  have htx : blitTargetX C = 0 := by unfold blitTargetX; omega
  have hty : blitTargetY C = 0 := by unfold blitTargetY; omega
  rw [hsx, hsy, hbw, hbh, htx, hty]
  rw [show (0 : Int) * W + 0 = 0 by ring]
  have hWH : (W * H).toNat = H.toNat * W.toNat := by
    rw [show W * H = (((H.toNat * W.toNat : Nat)) : Int) by push_cast; rw [Int.toNat_of_nonneg (by omega), Int.toNat_of_nonneg (by omega)]; ring]
    exact Int.toNat_natCast _
  have hopix : ∀ r k : Nat, r < H.toNat → k < W.toNat →
      0xFF000000 ≤ getPix C.surface (-C.y * (C.width : Int) + -C.x + (r : Int) * (C.width : Int) + k) := by
    intro r k hr hk
    have hw0 : (0 : Int) ≤ (C.width : Int) := Int.ofNat_nonneg _
    have hidx0 : 0 ≤ -C.y * (C.width : Int) + -C.x + (r : Int) * (C.width : Int) + k := by
      have h1 : (0 : Int) ≤ (-C.y + r) * (C.width : Int) :=
        mul_nonneg (by omega) hw0
      have h2 : (-C.y + (r : Int)) * (C.width : Int) =
          -C.y * (C.width : Int) + (r : Int) * (C.width : Int) := by ring
      omega
    have hrow : -C.y + (r : Int) ≤ (C.height : Int) - 1 := by omega
    have hcol : -C.x + (k : Int) ≤ (C.width : Int) - 1 := by omega
    have hidxlt : -C.y * (C.width : Int) + -C.x + (r : Int) * (C.width : Int) + k <
        (C.width : Int) * (C.height : Int) := by
      have h1 : (-C.y + (r : Int)) * (C.width : Int) ≤
          ((C.height : Int) - 1) * (C.width : Int) :=
        mul_le_mul_of_nonneg_right hrow hw0
      have h2 : (-C.y + (r : Int)) * (C.width : Int) =
          -C.y * (C.width : Int) + (r : Int) * (C.width : Int) := by ring
      have h3 : ((C.height : Int) - 1) * (C.width : Int) =
          (C.width : Int) * (C.height : Int) - (C.width : Int) := by ring
      omega
    unfold getPix
    have hlt' : (-C.y * (C.width : Int) + -C.x + (r : Int) * (C.width : Int) + k).toNat <
        C.surface.length := by
      rw [hsurf]
      have : ((C.width * C.height : Nat) : Int) = (C.width : Int) * (C.height : Int) := by
        push_cast; ring
      omega
    rw [List.getD_eq_getElem?_getD, List.getElem?_eq_getElem hlt']
    simpa using hop _ (List.getElem_mem hlt')
  have hagree := blitRows_agree C.surface W.toNat (C.width : Int) H.toNat
    (-C.y * (C.width : Int) + -C.x) 0 t1 t2 le_rfl
    (by
      intro r k hr hk
      exact hopix r k hr hk)
    ⟨by omega, fun i hi => absurd hi (by omega)⟩
  rw [show ((W.toNat : Nat) : Int) = W from Int.toNat_of_nonneg (by omega)] at hagree
  refine agreeUpTo_full_eq _ _ ((0 : Int).toNat + H.toNat * W.toNat) hagree ?_
  rw [blitRows_length, hlen1, hWH]
  omega

/-- With the accumulator cleared by a covering opaque layer (the head
of the blit list), the composited result is independent of the malloc
garbage and of the matte. -/
theorem blendAfterWalk_cover_eq (matte : Nat) (g1 g2 : Nat → Nat) (W H : Int)
    (C : BlitLayer) (bl : List BlitLayer) (ws : List String)
    (hW : 0 < W) (hH : 0 < H)
    (hx : C.x ≤ 0) (hy : C.y ≤ 0)
    (hcw : W ≤ (C.width : Int) + C.x) (hch : H ≤ (C.height : Int) + C.y)
    (hsurf : C.surface.length = C.width * C.height)
    (hop : ∀ p ∈ C.surface, 0xFF000000 ≤ p) :
    blendAfterWalk matte g1 (.done false W H (C :: bl) ws) =
      blendAfterWalk matte g2 (.done false W H (C :: bl) ws) := by
  simp only [blendAfterWalk]
  have hpos : 0 < W * H := mul_pos hW hH
  rw [if_neg (show ¬(W * H ≤ 0) by omega), if_neg (show ¬(W * H ≤ 0) by omega)]
  simp only [List.foldl_cons]
  rw [Blend_Composite_cover C W H (canvasInit false (W * H).toNat matte g1)
    (canvasInit false (W * H).toNat matte g2) hW hH hx hy hcw hch
    (by simp [canvasInit]) (by simp [canvasInit]) hsurf hop]

/-- Walk decomposition for claim C4: processing any prefix `pre` of
layers (top-down) followed by a covering fully-opaque layer `A`, the
rest of the stack — everything beneath `A` — never influences the
result, nor does the malloc garbage. -/
theorem c4_aux (re : Bool) (W H : Int) (matte : Nat) (hW : 0 < W) (hH : 0 < H)
    (A : Image) (hconA : decoderContract A)
    (hAa : A.rdAlpha = false) (hAx : A.x ≤ 0) (hAy : A.y ≤ 0)
    (hAw : W ≤ (A.rdWidth : Int) + A.x) (hAh : H ≤ (A.rdHeight : Int) + A.y) :
    ∀ pre : List Image, (∀ img ∈ pre, decoderContract img) →
    ∀ (rest1 rest2 : List Image) (idx : Int) (size : Nat) (bl : List BlitLayer)
      (ws : List String) (g1 g2 : Nat → Nat),
      blendAfterWalk matte g1 (walkAux re (pre ++ A :: rest1) idx true size W H bl ws) =
        blendAfterWalk matte g2 (walkAux re (pre ++ A :: rest2) idx true size W H bl ws) := by
  have htf : ¬(true = false) := by decide
  intro pre
  induction pre with
  | nil =>
    intro _ rest1 rest2 idx size bl ws g1 g2
    simp only [List.nil_append]
    simp only [walkAux]
    rw [if_neg htf, if_neg htf]
    rw [if_neg (show ¬(A.rdWidth = 0 ∨ A.rdHeight = 0) by omega),
      if_neg (show ¬(A.rdWidth = 0 ∨ A.rdHeight = 0) by omega)]
    rw [if_neg (show ¬(W ≤ 0) by omega), if_neg (show ¬(H ≤ 0) by omega)]
    rw [if_neg (show ¬((A.rdWidth : Int) + A.x ≤ 0 ∨ (A.rdHeight : Int) + A.y ≤ 0 ∨
      A.x ≥ W ∨ A.y ≥ H) by omega),
      if_neg (show ¬((A.rdWidth : Int) + A.x ≤ 0 ∨ (A.rdHeight : Int) + A.y ≤ 0 ∨
      A.x ≥ W ∨ A.y ≥ H) by omega)]
    by_cases hsc : size = 0 ∧ A.rdAlpha = false ∧ re = false ∧ A.x = 0 ∧ A.y = 0 ∧
        (A.rdWidth : Int) = W ∧ (A.rdHeight : Int) = H
    · rw [if_pos hsc, if_pos hsc]
      rfl
    · rw [if_neg hsc, if_neg hsc]
      by_cases hdec : A.rdDecodeOk = false
      · rw [if_pos hdec, if_pos hdec]
        rfl
      · rw [if_neg hdec, if_neg hdec]
        have hcov : A.rdAlpha = false ∧ (A.x ≤ 0 ∧ (A.rdWidth : Int) + A.x ≥ W) ∧
            A.y ≤ 0 ∧ (A.rdHeight : Int) + A.y ≥ H := ⟨hAa, ⟨hAx, by omega⟩, hAy, by omega⟩
        rw [if_pos hcov]
        rw [walkAux_alpha_false, walkAux_alpha_false]
        exact blendAfterWalk_cover_eq matte g1 g2 W H
          ⟨A.x, A.y, A.rdWidth, A.rdHeight, A.rdSurface⟩ bl _ hW hH hAx hAy
          hAw hAh (hconA hAa).1 (hconA hAa).2
  | cons p pre ih =>
    intro hcon rest1 rest2 idx size bl ws g1 g2
    have hconp : decoderContract p := hcon p (List.mem_cons_self p pre)
    have hcon' : ∀ img ∈ pre, decoderContract img :=
      fun i hi => hcon i (List.mem_cons_of_mem p hi)
    rw [List.cons_append, List.cons_append]
    simp only [walkAux]
    rw [if_neg htf, if_neg htf]
    by_cases hhdr : p.rdWidth = 0 ∨ p.rdHeight = 0
    · rw [if_pos hhdr, if_pos hhdr]
      rfl
    · rw [if_neg hhdr, if_neg hhdr]
      rw [if_neg (show ¬(W ≤ 0) by omega), if_neg (show ¬(H ≤ 0) by omega)]
      by_cases hskip : (p.rdWidth : Int) + p.x ≤ 0 ∨ (p.rdHeight : Int) + p.y ≤ 0 ∨
          p.x ≥ W ∨ p.y ≥ H
      · rw [if_pos hskip, if_pos hskip]
        exact ih hcon' rest1 rest2 (idx - 1) size bl ws g1 g2
      · rw [if_neg hskip, if_neg hskip]
        by_cases hsc : size = 0 ∧ p.rdAlpha = false ∧ re = false ∧ p.x = 0 ∧ p.y = 0 ∧
            (p.rdWidth : Int) = W ∧ (p.rdHeight : Int) = H
        · rw [if_pos hsc, if_pos hsc]
          rfl
        · rw [if_neg hsc, if_neg hsc]
          by_cases hdec : p.rdDecodeOk = false
          · rw [if_pos hdec, if_pos hdec]
            rfl
          · rw [if_neg hdec, if_neg hdec]
            by_cases hcov : p.rdAlpha = false ∧ (p.x ≤ 0 ∧ (p.rdWidth : Int) + p.x ≥ W) ∧
                p.y ≤ 0 ∧ (p.rdHeight : Int) + p.y ≥ H
            · rw [if_pos hcov]
              rw [walkAux_alpha_false, walkAux_alpha_false]
              exact blendAfterWalk_cover_eq matte g1 g2 W H
                ⟨p.x, p.y, p.rdWidth, p.rdHeight, p.rdSurface⟩ bl _ hW hH
                hcov.2.1.1 hcov.2.2.1 hcov.2.1.2 hcov.2.2.2
                (hconp hcov.1).1 (hconp hcov.1).2
            · rw [if_neg hcov]
              exact ih hcon' rest1 rest2 (idx - 1) (size + 1) _ _ g1 g2

/-- Claim C4: with a layer `A` that decodes fully opaque (alpha flag
false, decoder contract) and covers the positive canvas, the job's
result is independent of everything beneath `A`: two runs whose stacks
differ only in the contents of the layers below `A` (same count), and
even with different malloc garbage, produce identical results — in
particular identical output bytes and identical warnings — and the
quantification over the below-layers' decode results shows they are
never decoded. -/
theorem opaque_cover_noninterference
    (above below1 below2 : List Image) (A : Image) (W H : Int) (re : Bool) (matte : Nat)
    (g1 g2 : Nat → Nat) (hW : 0 < W) (hH : 0 < H)
    (hlen : below1.length = below2.length)
    (hcon : ∀ img ∈ above, decoderContract img) (hconA : decoderContract A)
    (hAa : A.rdAlpha = false) (hAx : A.x ≤ 0) (hAy : A.y ≤ 0)
    (hAw : W ≤ (A.rdWidth : Int) + A.x) (hAh : H ≤ (A.rdHeight : Int) + A.y) :
    Work_Blend ⟨W, H, re, matte, below1 ++ A :: above⟩ g1 =
      Work_Blend ⟨W, H, re, matte, below2 ++ A :: above⟩ g2 := by
  unfold Work_Blend
  simp only
  rw [show (below1 ++ A :: above).reverse = above.reverse ++ (A :: below1.reverse) by simp,
    show (below2 ++ A :: above).reverse = above.reverse ++ (A :: below2.reverse) by simp]
  rw [show ((below2 ++ A :: above).length : Int) = ((below1 ++ A :: above).length : Int) by
    simp [hlen]]
  exact c4_aux re W H matte hW hH A hconA hAa hAx hAy hAw hAh above.reverse
    (fun img hi => hcon img (List.mem_reverse.mp hi)) below1.reverse below2.reverse
    _ 0 [] [] g1 g2

/-- Witness for `opaque_cover_noninterference`: a 1×1 canvas, an
opaque covering layer `A`, and two different below layers plus
different garbage functions; the two jobs produce the same result. -/
theorem opaque_cover_noninterference_witness :
    Work_Blend ⟨1, 1, true, 5,
        [⟨[1], 0, 0, 9, 9, true, "x", false, ["w"], []⟩,
         ⟨[2], 0, 0, 1, 1, false, "", true, [], [0xFFABCDEF]⟩]⟩ (fun _ => 17) =
      Work_Blend ⟨1, 1, true, 5,
        [⟨[3], 2, 2, 4, 4, false, "y", true, [], [0, 1]⟩,
         ⟨[2], 0, 0, 1, 1, false, "", true, [], [0xFFABCDEF]⟩]⟩ (fun _ => 99) := by
  exact opaque_cover_noninterference []
    [⟨[1], 0, 0, 9, 9, true, "x", false, ["w"], []⟩]
    [⟨[3], 2, 2, 4, 4, false, "y", true, [], [0, 1]⟩]
    ⟨[2], 0, 0, 1, 1, false, "", true, [], [0xFFABCDEF]⟩
    1 1 true 5 (fun _ => 17) (fun _ => 99) (by decide) (by decide) rfl
    (by intro img hi; simp at hi)
    (by intro h; exact ⟨by decide, by decide⟩)
    rfl (by decide) (by decide) (by decide) (by decide)

end NodeBlend
